import Mathlib

/-!
# Verification of the Shasta event decoder and proposal-correlation resolver

Shallow embedding of `script/shasta_event_decoder.py`,
`script/decode_shasta_event.py`, and the pure/decodable parts of
`script/stress_shasta_proposal.py`.

Conventions of the embedding:

* Python `bytes` buffers become `List Nat`, one entry per byte (a well-formed
  buffer has every entry `< 256`; encoders only produce such entries).
* Python `str` hex inputs become `List Char`; rendered hex outputs (addresses,
  hashes) become `String` built from the same character-level rendering that
  `bytes.hex()` performs.
* Functions that raise exceptions are modeled with `Except String` carrying
  the exact message the code raises, or with `Option` where the code catches
  internally and returns `None`.
* The stateful inclusion cache (`BatchMonitor.proposal_block_cache`) becomes
  an explicit association list threaded through the resolver operations, and
  the external `get_logs` query becomes an explicit `Except Unit (List LogEntry)`
  argument holding what the query returned (or that it raised).
-/

/-! ## Byte-level helpers -/

/-- Big-endian value of a byte list (what `struct.unpack('>Q', pad ++ bs)` and
`int.from_bytes(bs, "big")` compute for byte-valued entries). -/
def beNat (bs : List Nat) : Nat := bs.foldl (fun a b => a * 256 + b) 0

/-- Python slicing `data[pos:pos+n]`. -/
def pySlice (data : List Nat) (pos n : Nat) : List Nat := (data.drop pos).take n

/-- Big-endian encoding of `v` into exactly `w` bytes (truncating above `256^w`). -/
def encodeBE : Nat → Nat → List Nat
  | 0, _ => []
  | w + 1, v => encodeBE w (v / 256) ++ [v % 256]

/-! ## Hex rendering (`bytes.hex()` with `0x`, lowercase) -/

/-- Lowercase hex digit for `n < 16`, as `hex()` renders it. -/
def hexDigitChar (n : Nat) : Char :=
  if n < 10 then Char.ofNat (48 + n) else Char.ofNat (87 + n)

/-- Two lowercase hex characters of one byte. -/
def byteHexChars (b : Nat) : List Char := [hexDigitChar (b / 16), hexDigitChar (b % 16)]

/-- Characters of `bs.hex()`. -/
def bytesHexChars (bs : List Nat) : List Char := (bs.map byteHexChars).flatten

/-- `'0x' + bs.hex()` as the Python code renders addresses and hashes. -/
def hex0x (bs : List Nat) : String := String.mk ('0' :: 'x' :: bytesHexChars bs)

/-! ## Hex parsing (`bytes.fromhex`) -/

/-- Value of one hex character, both cases accepted (as `bytes.fromhex` does). -/
def hexDigitVal (c : Char) : Option Nat :=
  if '0' ≤ c ∧ c ≤ '9' then some (c.toNat - 48)
  else if 'a' ≤ c ∧ c ≤ 'f' then some (c.toNat - 87)
  else if 'A' ≤ c ∧ c ≤ 'F' then some (c.toNat - 55)
  else none

/-- `bytes.fromhex` on a string of hex digits: pairs of digits become bytes;
odd length or a non-hex character raises (here: `none`). -/
def fromhex : List Char → Option (List Nat)
  | [] => some []
  | [_] => none
  | c1 :: c2 :: rest => do
      let hi ← hexDigitVal c1
      let lo ← hexDigitVal c2
      let bs ← fromhex rest
      some ((hi * 16 + lo) :: bs)

/-- The `startswith("0x")` strip used by several scripts. -/
def strip0x (s : List Char) : List Char :=
  match s with
  | c1 :: c2 :: r => if c1 = '0' ∧ c2 = 'x' then r else c1 :: c2 :: r
  | _ => s

/-! ## Wire decoder primitives (`ShastaEventDecoder.unpack_*`)

Each mirrors one method of `ShastaEventDecoder`: check `pos + N > len(data)`,
raise `ValueError(msg)` if short, else return the decoded value together with
`pos + N`. -/

def uint8Msg : String := "Not enough data to read 1-byte uint8"
def uint16Msg : String := "Not enough data to read 2-byte uint16"
def uint24Msg : String := "Not enough data to read 3-byte uint24"
def uint48Msg : String := "Not enough data to read 6-byte uint48"
def addressMsg : String := "Not enough data to read 20-byte address"
def hashMsg : String := "Not enough data to read 32-byte hash"

def unpack_uint8 (data : List Nat) (pos : Nat) : Except String (Nat × Nat) :=
  if pos + 1 > data.length then .error uint8Msg
  else .ok (data.getD pos 0, pos + 1)

def unpack_uint16 (data : List Nat) (pos : Nat) : Except String (Nat × Nat) :=
  if pos + 2 > data.length then .error uint16Msg
  else .ok (beNat (pySlice data pos 2), pos + 2)

def unpack_uint24 (data : List Nat) (pos : Nat) : Except String (Nat × Nat) :=
  if pos + 3 > data.length then .error uint24Msg
  else .ok (beNat (pySlice data pos 3), pos + 3)

def unpack_uint48 (data : List Nat) (pos : Nat) : Except String (Nat × Nat) :=
  if pos + 6 > data.length then .error uint48Msg
  else .ok (beNat (pySlice data pos 6), pos + 6)

def unpack_address (data : List Nat) (pos : Nat) : Except String (String × Nat) :=
  if pos + 20 > data.length then .error addressMsg
  else .ok (hex0x (pySlice data pos 20), pos + 20)

def unpack_hash (data : List Nat) (pos : Nat) : Except String (String × Nat) :=
  if pos + 32 > data.length then .error hashMsg
  else .ok (hex0x (pySlice data pos 32), pos + 32)

/-! ## Decoded record structures (the `@dataclass`es of `shasta_event_decoder.py`) -/

structure BlobSlice where
  blob_hashes : List String
  offset : Nat
  timestamp : Nat
deriving DecidableEq

structure DerivationSource where
  is_forced_inclusion : Bool
  blob_slice : BlobSlice
deriving DecidableEq

structure ShastaProposal where
  id : Nat
  timestamp : Nat
  end_of_submission_window_timestamp : Nat
  proposer : String
  parent_proposal_hash : String
  derivation_hash : String
deriving DecidableEq

structure ShastaDerivation where
  origin_block_number : Nat
  origin_block_hash : String
  basefee_sharing_pctg : Nat
  sources : List DerivationSource
deriving DecidableEq

/-- `ShastaEventData` of the source: the fields are exactly `proposal` and
`derivation`; there is no `core_state` field. -/
structure ShastaEventData where
  proposal : ShastaProposal
  derivation : ShastaDerivation
deriving DecidableEq

/-- The `@dataclass` field names of `ShastaEventData`, mirroring lines 78-84 of
`shasta_event_decoder.py`, used to model Python attribute lookup on a decoded
event record. -/
def shastaEventDataFields : List String := ["proposal", "derivation"]

/-! ## `ShastaEventDecoder.decode_event_data` -/

/-- The blob-hash loop inside `decode_event_data` (`for _ in range(blob_hashes_length)`). -/
def decodeBlobHashes (data : List Nat) : Nat → Nat → Except String (List String × Nat)
  | 0, pos => .ok ([], pos)
  | n + 1, pos => do
      let (h, pos1) ← unpack_hash data pos
      let (hs, pos2) ← decodeBlobHashes data n pos1
      .ok (h :: hs, pos2)

/-- One iteration of the sources loop inside `decode_event_data`. -/
def decodeSource (data : List Nat) (pos : Nat) : Except String (DerivationSource × Nat) := do
  let (flag, pos1) ← unpack_uint8 data pos
  let (nBlobs, pos2) ← unpack_uint16 data pos1
  let (blobs, pos3) ← decodeBlobHashes data nBlobs pos2
  let (offset, pos4) ← unpack_uint24 data pos3
  let (ts, pos5) ← unpack_uint48 data pos4
  .ok (⟨flag != 0, ⟨blobs, offset, ts⟩⟩, pos5)

/-- The sources loop (`for _ in range(sources_length)`). -/
def decodeSourcesList (data : List Nat) : Nat → Nat → Except String (List DerivationSource × Nat)
  | 0, pos => .ok ([], pos)
  | n + 1, pos => do
      let (s, pos1) ← decodeSource data pos
      let (ss, pos2) ← decodeSourcesList data n pos1
      .ok (s :: ss, pos2)

/-- Body of `decode_event_data` before the wrapping `except` clause. -/
def decode_event_data_core (data : List Nat) : Except String ShastaEventData := do
  let (proposal_id, p1) ← unpack_uint48 data 0
  let (proposer, p2) ← unpack_address data p1
  let (timestamp, p3) ← unpack_uint48 data p2
  let (eosw, p4) ← unpack_uint48 data p3
  let (parent_proposal_hash, p5) ← unpack_hash data p4
  let (origin_block_number, p6) ← unpack_uint48 data p5
  let (origin_block_hash, p7) ← unpack_hash data p6
  let (basefee_sharing_pctg, p8) ← unpack_uint8 data p7
  let (sources_length, p9) ← unpack_uint16 data p8
  let (sources, p10) ← decodeSourcesList data sources_length p9
  let (derivation_hash, _) ← unpack_hash data p10
  .ok ⟨⟨proposal_id, timestamp, eosw, proposer, parent_proposal_hash, derivation_hash⟩,
        ⟨origin_block_number, origin_block_hash, basefee_sharing_pctg, sources⟩⟩

/-- `decode_event_data`, including the `except Exception` re-raise that wraps
the inner message. -/
def decode_event_data (data : List Nat) : Except String ShastaEventData :=
  match decode_event_data_core data with
  | .ok v => .ok v
  | .error e => .error ("Failed to decode Shasta event data: " ++ e)

/-! ## Canonical encoding (the buffer family quantified over by the order
invariant): field values concatenated in the documented order. -/

structure SourceSpec where
  flag : Nat
  blobs : List (List Nat)
  offset : Nat
  ts : Nat

structure EventSpec where
  id : Nat
  proposer : List Nat
  timestamp : Nat
  eosw : Nat
  parent : List Nat
  obn : Nat
  obh : List Nat
  bfs : Nat
  sources : List SourceSpec
  dh : List Nat

def SourceSpec.WF (s : SourceSpec) : Prop :=
  s.flag < 256 ∧ s.blobs.length < 2 ^ 16 ∧ (∀ b ∈ s.blobs, b.length = 32) ∧
  s.offset < 2 ^ 24 ∧ s.ts < 2 ^ 48

instance (s : SourceSpec) : Decidable s.WF := by
  unfold SourceSpec.WF; infer_instance

def EventSpec.WF (e : EventSpec) : Prop :=
  e.id < 2 ^ 48 ∧ e.proposer.length = 20 ∧ e.timestamp < 2 ^ 48 ∧ e.eosw < 2 ^ 48 ∧
  e.parent.length = 32 ∧ e.obn < 2 ^ 48 ∧ e.obh.length = 32 ∧ e.bfs < 256 ∧
  e.sources.length < 2 ^ 16 ∧ (∀ s ∈ e.sources, s.WF) ∧ e.dh.length = 32

instance (e : EventSpec) : Decidable e.WF := by
  unfold EventSpec.WF; infer_instance

def encodeSource (s : SourceSpec) : List Nat :=
  encodeBE 1 s.flag ++ encodeBE 2 s.blobs.length ++ s.blobs.flatten ++
  encodeBE 3 s.offset ++ encodeBE 6 s.ts

def encodeEvent (e : EventSpec) : List Nat :=
  encodeBE 6 e.id ++ e.proposer ++ encodeBE 6 e.timestamp ++ encodeBE 6 e.eosw ++
  e.parent ++ encodeBE 6 e.obn ++ e.obh ++ encodeBE 1 e.bfs ++
  encodeBE 2 e.sources.length ++ (e.sources.map encodeSource).flatten ++ e.dh

/-- The record the decoder must reproduce from `encodeEvent e`. -/
def specSource (s : SourceSpec) : DerivationSource :=
  ⟨s.flag != 0, ⟨s.blobs.map hex0x, s.offset, s.ts⟩⟩

def expectedEvent (e : EventSpec) : ShastaEventData :=
  ⟨⟨e.id, e.timestamp, e.eosw, hex0x e.proposer, hex0x e.parent, hex0x e.dh⟩,
   ⟨e.obn, hex0x e.obh, e.bfs, e.sources.map specSource⟩⟩

/-! ## `BatchMonitor.extract_proposal_id_from_extradata`

Input is the block metadata hex string (as `List Char`): strip an optional
`0x`, `bytes.fromhex`, require at least 7 bytes, and read `bytes[1:7]`
big-endian.  All failures are caught and become `none`. -/

def extract_proposal_id_from_extradata (extradata : List Char) : Option Nat :=
  match fromhex (strip0x extradata) with
  | none => none
  | some extradata_bytes =>
      if extradata_bytes.length < 7 then none
      else some (beNat (pySlice extradata_bytes 1 6))

/-! ## `BatchMonitor.decode_anchor_tx_input` (manual fallback path)

The fallback decoding used when web3 ABI decoding is unavailable or fails:
require `4 + 32*3` bytes, take the first 32-byte argument word after the
4-byte selector, and read its low 6 bytes big-endian.  The selector is read
only for logging and never checked. -/

def decode_anchor_tx_input_manual (input_bytes : List Nat) : Option Nat :=
  if input_bytes.length < 4 + 32 * 3 then none
  else
    let checkpoint_block_number_word := pySlice input_bytes 4 32
    some (beNat (pySlice checkpoint_block_number_word 26 6))

/-! ## `BatchMonitor.group_blocks_by_proposal_id` -/

structure AnchorTxInfo where
  proposal_id : Nat
  anchor_number : Nat
  l2_block_number : Nat
deriving DecidableEq

structure ProposalGroup where
  proposal_id : Nat
  anchor_number : Nat
  l2_block_numbers : List Nat
deriving DecidableEq

/-- The scanning loop of `group_blocks_by_proposal_id` with the current group
accumulated; the Python `current_proposal_id` is `cur.proposal_id`. -/
def groupGo (cur : ProposalGroup) : List AnchorTxInfo → List ProposalGroup
  | [] => [cur]
  | info :: rest =>
      if info.proposal_id = cur.proposal_id then
        groupGo { cur with l2_block_numbers := cur.l2_block_numbers ++ [info.l2_block_number] } rest
      else
        cur :: groupGo ⟨info.proposal_id, info.anchor_number, [info.l2_block_number]⟩ rest

def group_blocks_by_proposal_id : List AnchorTxInfo → List ProposalGroup
  | [] => []
  | info :: rest => groupGo ⟨info.proposal_id, info.anchor_number, [info.l2_block_number]⟩ rest

/-- The `(proposal_id, block)` pairs a group accounts for, used to state that
grouping partitions the input with a constant `proposal_id` per group. -/
def pidBlocks (g : ProposalGroup) : List (Nat × Nat) :=
  g.l2_block_numbers.map (fun b => (g.proposal_id, b))

/-! ## The inclusion resolver (`find_l1_inclusion_block` / `batch_find_proposal_blocks`)

`proposal_block_cache : Dict[int, Optional[int]]` becomes an association list
`Cache`; `dict` assignment overwrites in place or appends.  A `Proposed` log
is a block number plus the proposal id `_extract_proposal_id_from_proposed_log`
recovered from it (`none` when that extraction failed, which the loops skip).
The external `get_logs` call is passed in as `Except Unit (List LogEntry)`:
`.error` models the query raising.  Each operation also returns how many
windowed queries it issued. -/

abbrev Cache : Type := List (Nat × Option Nat)

structure LogEntry where
  blockNumber : Nat
  pid : Option Nat
deriving DecidableEq

/-- First-match association lookup (`key in dict` / `dict[key]`). -/
def alookup {β : Type} : List (Nat × β) → Nat → Option β
  | [], _ => none
  | (k, v) :: rest, key => if key = k then some v else alookup rest key

def cacheGet (c : Cache) (k : Nat) : Option (Option Nat) := alookup c k

/-- `dict[k] = v`: overwrite if present, append otherwise. -/
def cacheSet (c : Cache) (k : Nat) (v : Option Nat) : Cache :=
  if (cacheGet c k).isSome then
    c.map (fun p => if p.1 = k then (k, v) else p)
  else c ++ [(k, v)]

/-- `dict.get(k)` on the cache: the stored `Optional[int]`, or `None` if absent. -/
def pyGet (c : Cache) (k : Nat) : Option Nat :=
  match cacheGet c k with
  | some v => v
  | none => none

/-- The scan over returned logs in `find_l1_inclusion_block`: first log whose
decoded proposal id matches wins; logs whose decoding failed are skipped. -/
def firstMatch : List LogEntry → Nat → Option Nat
  | [], _ => none
  | l :: ls, proposal_id =>
      if l.pid = some proposal_id then some l.blockNumber else firstMatch ls proposal_id

/-- `find_l1_inclusion_block` on cache `c`: returns the resolved block, the new
cache, and the number of windowed queries issued. -/
def find_l1_inclusion_block (c : Cache) (proposal_id : Nat)
    (q : Except Unit (List LogEntry)) : Option Nat × Cache × Nat :=
  match cacheGet c proposal_id with
  | some cached_result => (cached_result, c, 0)
  | none =>
      match q with
      | .error _ => (none, cacheSet c proposal_id none, 1)
      | .ok logs =>
          match firstMatch logs proposal_id with
          | some l1_block_number =>
              (some l1_block_number, cacheSet c proposal_id (some l1_block_number), 1)
          | none => (none, cacheSet c proposal_id none, 1)

/-- Requested proposal ids (`proposal_ids_to_find` as a set, here in first
occurrence order). -/
def dedupFirst : List Nat → List Nat
  | [] => []
  | x :: xs => x :: (dedupFirst xs).filter (fun y => y ≠ x)

def requestedIds (proposal_queries : List (Nat × Nat)) : List Nat :=
  dedupFirst (proposal_queries.map Prod.fst)

/-- The `proposal_to_block` map built from the logs: first occurrence of each
still-uncached proposal id wins. -/
def buildProposalToBlock (logs : List LogEntry) (uncachedIds : List Nat) : List (Nat × Nat) :=
  logs.foldl
    (fun m log =>
      match log.pid with
      | some d =>
          if d ∈ uncachedIds ∧ (alookup m d).isNone then m ++ [(d, log.blockNumber)] else m
      | none => m)
    []

/-- `batch_find_proposal_blocks` on cache `c`: returns the per-proposal result
mapping, the new cache, and the number of windowed queries issued.  The
`except` branch of the source catches a failed query and caches `None` for
every still-uncached requested id. -/
def batch_find_proposal_blocks (c : Cache) (proposal_queries : List (Nat × Nat))
    (q : Except Unit (List LogEntry)) : List (Nat × Option Nat) × Cache × Nat :=
  let requested := requestedIds proposal_queries
  let uncachedIds := requested.filter (fun p => (cacheGet c p).isNone)
  if uncachedIds.isEmpty then
    (requested.map (fun p => (p, pyGet c p)), c, 0)
  else
    match q with
    | .error _ =>
        let c1 := uncachedIds.foldl (fun acc p => cacheSet acc p none) c
        (requested.map (fun p => (p, pyGet c1 p)), c1, 1)
    | .ok logs =>
        let p2b := buildProposalToBlock logs uncachedIds
        let c1 := uncachedIds.foldl (fun acc p => cacheSet acc p (alookup p2b p)) c
        (requested.map (fun p => (p, pyGet c1 p)), c1, 1)

/-! ## `BatchMonitor.find_proposal_end_block`

The forward boundary scan.  The per-block `parse_l2_block_anchor_tx` fetch is
passed in as a function `fetch : Nat → Option AnchorTxInfo`; the instrumented
second component counts how many fetches the loop performed. -/

def find_proposal_end_block_go (fetch : Nat → Option AnchorTxInfo) (proposal_id : Nat) :
    Nat → Nat → Nat → Nat × Nat
  | 0, _, last_valid_block => (last_valid_block, 0)
  | fuel + 1, current_block, last_valid_block =>
      match fetch current_block with
      | none => (last_valid_block, 1)
      | some anchor_info =>
          if anchor_info.proposal_id = proposal_id then
            let r := find_proposal_end_block_go fetch proposal_id fuel
              (current_block + 1) current_block
            (r.1, r.2 + 1)
          else (last_valid_block, 1)

def find_proposal_end_block (fetch : Nat → Option AnchorTxInfo) (end_block proposal_id
    max_forward : Nat) : Nat :=
  (find_proposal_end_block_go fetch proposal_id max_forward (end_block + 1) end_block).1

def find_proposal_end_block_fetches (fetch : Nat → Option AnchorTxInfo) (end_block proposal_id
    max_forward : Nat) : Nat :=
  (find_proposal_end_block_go fetch proposal_id max_forward (end_block + 1) end_block).2

/-! ## `decode_shasta_event.py` `main`

The helper script normalizes `EVENT_DATA`, decodes it, prints the proposal and
derivation sections, and then reads `event.core_state.*`.  Attribute access on
the decoded record is modeled against `shastaEventDataFields`. -/

inductive MainErr where
  | systemExit
  | fromhexError
  | decodeError (msg : String)
  | attributeError
deriving DecidableEq

def pyIsSpace (c : Char) : Bool :=
  c = ' ' ∨ c = '\t' ∨ c = '\n' ∨ c = '\x0b' ∨ c = '\x0c' ∨ c = '\r'

/-- `str.strip()`. -/
def pyStrip (s : List Char) : List Char :=
  (((s.dropWhile pyIsSpace).reverse).dropWhile pyIsSpace).reverse

/-- `payload.strip().lower()` followed by the `0x` strip and the emptiness /
odd-length check of `main`, producing the bytes handed to the decoder. -/
def mainPayloadBytes (event_data : List Char) : Except MainErr (List Nat) :=
  let payload := (pyStrip event_data).map Char.toLower
  let payload := strip0x payload
  if payload = [] ∨ payload.length % 2 ≠ 0 then .error .systemExit
  else
    match fromhex payload with
    | none => .error .fromhexError
    | some bs => .ok bs

/-- `main()` of `decode_shasta_event.py`: decode, print (pure here), then
access `event.core_state`, which `ShastaEventData` does not carry. -/
def decodeShastaEventMain (event_data : List Char) : Except MainErr Unit :=
  match mainPayloadBytes event_data with
  | .error e => .error e
  | .ok bs =>
      match decode_event_data bs with
      | .error msg => .error (.decodeError msg)
      | .ok _ =>
          if "core_state" ∈ shastaEventDataFields then .ok ()
          else .error .attributeError

/-! ## Concrete example inputs used by witnesses -/

/-- A small well-formed event: one derivation source carrying one blob hash. -/
def exEvent : EventSpec :=
  { id := 9
  , proposer := List.replicate 20 170
  , timestamp := 7
  , eosw := 8
  , parent := List.range 32
  , obn := 3
  , obh := List.replicate 32 1
  , bfs := 50
  , sources := [⟨1, [List.replicate 32 2], 5, 6⟩]
  , dh := List.replicate 32 3 }

/-- The grouping example: `[(id=5, blk=10), (id=5, blk=11), (id=6, blk=12)]`. -/
def exInfos : List AnchorTxInfo := [⟨5, 100, 10⟩, ⟨5, 100, 11⟩, ⟨6, 101, 12⟩]

/-- The extradata example bytes `4b 00 00 00 00 00 05`. -/
def exExtra : List Nat := [75, 0, 0, 0, 0, 0, 5]

/-- A 100-byte anchor call-input with selector `00 00 00 00` and checkpoint
block number 5. -/
def exAnchorA : List Nat :=
  List.replicate 30 0 ++ [0, 0, 0, 0, 0, 5] ++ List.replicate 64 0

/-- The same call-input with a different selector `11 11 11 11`. -/
def exAnchorB : List Nat :=
  List.replicate 4 17 ++ List.replicate 26 0 ++ [0, 0, 0, 0, 0, 5] ++ List.replicate 64 0

/-- A block-fetch oracle: blocks 1-12 belong to proposal 5, block 13 to
proposal 6, nothing beyond. -/
def exFetch (b : Nat) : Option AnchorTxInfo :=
  if b ≤ 12 then some ⟨5, 2, b⟩ else if b = 13 then some ⟨6, 2, 13⟩ else none

/-! ## Basic lemmas about the helpers -/

theorem encodeBE_length (w v : Nat) : (encodeBE w v).length = w := by
  induction w generalizing v with
  | zero => rfl
  | succ w ih => simp [encodeBE, ih]

theorem beNat_append_singleton (l : List Nat) (b : Nat) :
    beNat (l ++ [b]) = beNat l * 256 + b := by
  simp [beNat, List.foldl_append]

theorem beNat_encodeBE (w v : Nat) (h : v < 256 ^ w) : beNat (encodeBE w v) = v := by
  induction w generalizing v with
  | zero =>
      have : v = 0 := by simpa using h
      simp [this, encodeBE, beNat]
  | succ w ih =>
      have hdiv : v / 256 < 256 ^ w := by
        rw [Nat.div_lt_iff_lt_mul (by norm_num)]
        calc v < 256 ^ (w + 1) := h
        _ = 256 ^ w * 256 := by ring
      rw [encodeBE, beNat_append_singleton, ih _ hdiv]
      omega

/-! ## Prefix-consumption lemmas for the primitive readers

The round-trip proofs thread the invariant `data.drop pos = <remaining encoding>`
through the decoder: each reader consumes the leading block of the remaining
encoding and leaves the rest. -/

theorem readN (data : List Nat) (pos n : Nat) (mid rest : List Nat)
    (h : data.drop pos = mid ++ rest) (hm : mid.length = n) (hp : pos ≤ data.length) :
    pos + n ≤ data.length ∧ pySlice data pos n = mid ∧ data.drop (pos + n) = rest := by
  have hlen : data.length - pos = n + rest.length := by
    have := congrArg List.length h
    simpa [List.length_drop, hm] using this
  refine ⟨by omega, ?_, ?_⟩
  · have : pySlice data pos n = (mid ++ rest).take n := by
      simp [pySlice, h]
    rw [this, ← hm, List.take_left]
  · have h1 : data.drop (pos + n) = (data.drop pos).drop n := by
      rw [List.drop_drop, Nat.add_comm]
    rw [h1, h, ← hm, List.drop_left]

theorem unpack_uint8_step (data : List Nat) (pos v : Nat) (rest : List Nat)
    (hv : v < 256) (h : data.drop pos = encodeBE 1 v ++ rest) (hp : pos ≤ data.length) :
    unpack_uint8 data pos = .ok (v, pos + 1) ∧ data.drop (pos + 1) = rest ∧
      pos + 1 ≤ data.length := by
  obtain ⟨hle, hs, hd⟩ := readN data pos 1 _ rest h (encodeBE_length 1 v) hp
  have henc : encodeBE 1 v = [v] := by
    simp [encodeBE]
    omega
  have hcons : data.drop pos = v :: rest := by
    rw [h, henc]
    rfl
  have hbyte : data.getD pos 0 = v := by
    have h0 : data[pos]? = some v := by
      have h1 : (data.drop pos)[0]? = data[pos]? := by
        rw [List.getElem?_drop]
        norm_num
      rw [← h1, hcons]
      simp
    simp [List.getD, h0]
  refine ⟨?_, hd, hle⟩
  simp only [unpack_uint8, gt_iff_lt]
  rw [if_neg (by omega), hbyte]

theorem unpack_uint16_step (data : List Nat) (pos v : Nat) (rest : List Nat)
    (hv : v < 2 ^ 16) (h : data.drop pos = encodeBE 2 v ++ rest) (hp : pos ≤ data.length) :
    unpack_uint16 data pos = .ok (v, pos + 2) ∧ data.drop (pos + 2) = rest ∧
      pos + 2 ≤ data.length := by
  obtain ⟨hle, hs, hd⟩ := readN data pos 2 _ rest h (encodeBE_length 2 v) hp
  refine ⟨?_, hd, hle⟩
  simp only [unpack_uint16, gt_iff_lt]
  rw [if_neg (by omega), hs, beNat_encodeBE 2 v (by norm_num at hv ⊢; omega)]

theorem unpack_uint24_step (data : List Nat) (pos v : Nat) (rest : List Nat)
    (hv : v < 2 ^ 24) (h : data.drop pos = encodeBE 3 v ++ rest) (hp : pos ≤ data.length) :
    unpack_uint24 data pos = .ok (v, pos + 3) ∧ data.drop (pos + 3) = rest ∧
      pos + 3 ≤ data.length := by
  obtain ⟨hle, hs, hd⟩ := readN data pos 3 _ rest h (encodeBE_length 3 v) hp
  refine ⟨?_, hd, hle⟩
  simp only [unpack_uint24, gt_iff_lt]
  rw [if_neg (by omega), hs, beNat_encodeBE 3 v (by norm_num at hv ⊢; omega)]

theorem unpack_uint48_step (data : List Nat) (pos v : Nat) (rest : List Nat)
    (hv : v < 2 ^ 48) (h : data.drop pos = encodeBE 6 v ++ rest) (hp : pos ≤ data.length) :
    unpack_uint48 data pos = .ok (v, pos + 6) ∧ data.drop (pos + 6) = rest ∧
      pos + 6 ≤ data.length := by
  obtain ⟨hle, hs, hd⟩ := readN data pos 6 _ rest h (encodeBE_length 6 v) hp
  refine ⟨?_, hd, hle⟩
  simp only [unpack_uint48, gt_iff_lt]
  rw [if_neg (by omega), hs, beNat_encodeBE 6 v (by norm_num at hv ⊢; omega)]

theorem unpack_address_step (data : List Nat) (pos : Nat) (mid rest : List Nat)
    (hm : mid.length = 20) (h : data.drop pos = mid ++ rest) (hp : pos ≤ data.length) :
    unpack_address data pos = .ok (hex0x mid, pos + 20) ∧ data.drop (pos + 20) = rest ∧
      pos + 20 ≤ data.length := by
  obtain ⟨hle, hs, hd⟩ := readN data pos 20 mid rest h hm hp
  refine ⟨?_, hd, hle⟩
  simp only [unpack_address, gt_iff_lt]
  rw [if_neg (by omega), hs]

theorem unpack_hash_step (data : List Nat) (pos : Nat) (mid rest : List Nat)
    (hm : mid.length = 32) (h : data.drop pos = mid ++ rest) (hp : pos ≤ data.length) :
    unpack_hash data pos = .ok (hex0x mid, pos + 32) ∧ data.drop (pos + 32) = rest ∧
      pos + 32 ≤ data.length := by
  obtain ⟨hle, hs, hd⟩ := readN data pos 32 mid rest h hm hp
  refine ⟨?_, hd, hle⟩
  simp only [unpack_hash, gt_iff_lt]
  rw [if_neg (by omega), hs]

/-! ## The nested loops of `decode_event_data` consume their encodings -/

theorem decodeBlobHashes_spec (data : List Nat) (blobs : List (List Nat)) :
    ∀ (pos : Nat) (rest : List Nat), (∀ b ∈ blobs, b.length = 32) →
    data.drop pos = blobs.flatten ++ rest → pos ≤ data.length →
    decodeBlobHashes data blobs.length pos =
      .ok (blobs.map hex0x, pos + blobs.flatten.length) ∧
    data.drop (pos + blobs.flatten.length) = rest ∧
    pos + blobs.flatten.length ≤ data.length := by
  induction blobs with
  | nil =>
      intro pos rest _ h hp
      refine ⟨by simp [decodeBlobHashes], by simpa using h, by simpa using hp⟩
  | cons b bs ih =>
      intro pos rest hwf h hp
      have hb : b.length = 32 := hwf b (by simp)
      have hshape : data.drop pos = b ++ (bs.flatten ++ rest) := by
        simpa [List.append_assoc] using h
      obtain ⟨h1, hd1, hle1⟩ := unpack_hash_step data pos b (bs.flatten ++ rest) hb hshape hp
      obtain ⟨h2, hd2, hle2⟩ :=
        ih (pos + 32) rest (fun x hx => hwf x (by simp [hx])) hd1 hle1
      have hlen : pos + (b :: bs).flatten.length = pos + 32 + bs.flatten.length := by
        simp [hb]
        omega
      refine ⟨?_, ?_, ?_⟩
      · simp only [List.length_cons, decodeBlobHashes, bind, Except.bind]
        rw [h1]
        simp only [h2]
        simp [hb]
        omega
      · rw [hlen]
        exact hd2
      · omega

theorem decodeSource_spec (data : List Nat) (s : SourceSpec) (pos : Nat) (rest : List Nat)
    (hwf : s.WF) (h : data.drop pos = encodeSource s ++ rest) (hp : pos ≤ data.length) :
    decodeSource data pos = .ok (specSource s, pos + (encodeSource s).length) ∧
    data.drop (pos + (encodeSource s).length) = rest ∧
    pos + (encodeSource s).length ≤ data.length := by
  obtain ⟨hf, hn, hb, ho, ht⟩ := hwf
  have hshape : data.drop pos = encodeBE 1 s.flag ++ (encodeBE 2 s.blobs.length ++
      (s.blobs.flatten ++ (encodeBE 3 s.offset ++ (encodeBE 6 s.ts ++ rest)))) := by
    simpa [encodeSource, List.append_assoc] using h
  obtain ⟨h1, hd1, hle1⟩ := unpack_uint8_step data pos s.flag _ hf hshape hp
  obtain ⟨h2, hd2, hle2⟩ := unpack_uint16_step data (pos + 1) s.blobs.length _ hn hd1 hle1
  obtain ⟨h3, hd3, hle3⟩ := decodeBlobHashes_spec data s.blobs (pos + 1 + 2) _ hb hd2 hle2
  obtain ⟨h4, hd4, hle4⟩ :=
    unpack_uint24_step data (pos + 1 + 2 + s.blobs.flatten.length) s.offset _ ho hd3 hle3
  obtain ⟨h5, hd5, hle5⟩ :=
    unpack_uint48_step data (pos + 1 + 2 + s.blobs.flatten.length + 3) s.ts _ ht hd4 hle4
  have hlen : (encodeSource s).length = 1 + 2 + s.blobs.flatten.length + 3 + 6 := by
    simp [encodeSource, encodeBE_length]
    omega
  refine ⟨?_, ?_, ?_⟩
  · simp only [decodeSource, bind, Except.bind]
    rw [h1]
    simp only [h2]
    simp only [h3]
    simp only [h4]
    simp only [h5]
    simp [specSource, hlen]
    omega
  · rw [hlen]
    have harith : pos + (1 + 2 + s.blobs.flatten.length + 3 + 6) =
        pos + 1 + 2 + s.blobs.flatten.length + 3 + 6 := by omega
    rw [harith]
    exact hd5
  · rw [hlen]
    omega

theorem decodeSourcesList_spec (data : List Nat) (srcs : List SourceSpec) :
    ∀ (pos : Nat) (rest : List Nat), (∀ s ∈ srcs, s.WF) →
    data.drop pos = (srcs.map encodeSource).flatten ++ rest → pos ≤ data.length →
    decodeSourcesList data srcs.length pos =
      .ok (srcs.map specSource, pos + (srcs.map encodeSource).flatten.length) ∧
    data.drop (pos + (srcs.map encodeSource).flatten.length) = rest ∧
    pos + (srcs.map encodeSource).flatten.length ≤ data.length := by
  induction srcs with
  | nil =>
      intro pos rest _ h hp
      refine ⟨by simp [decodeSourcesList], by simpa using h, by simpa using hp⟩
  | cons s ss ih =>
      intro pos rest hwf h hp
      have hshape : data.drop pos =
          encodeSource s ++ ((ss.map encodeSource).flatten ++ rest) := by
        simpa [List.append_assoc] using h
      obtain ⟨h1, hd1, hle1⟩ := decodeSource_spec data s pos _ (hwf s (by simp)) hshape hp
      obtain ⟨h2, hd2, hle2⟩ :=
        ih (pos + (encodeSource s).length) rest (fun x hx => hwf x (by simp [hx])) hd1 hle1
      have hlen : pos + ((s :: ss).map encodeSource).flatten.length =
          pos + (encodeSource s).length + ((ss.map encodeSource).flatten).length := by
        simp
        omega
      refine ⟨?_, ?_, ?_⟩
      · simp only [List.length_cons, decodeSourcesList, bind, Except.bind]
        rw [h1]
        simp only [h2]
        simp
        omega
      · rw [hlen]
        exact hd2
      · omega

/-! ## Claim theorems -/

/-- C1: decoding a buffer formed by concatenating field values in the
documented canonical order (id u48, proposer address, timestamp u48,
submission_window_end u48, parent_hash 32, origin_block_number u48,
origin_block_hash 32, basefee_sharing_pctg u8, sources_count u16, each source
as flag u8 / blob count u16 / 32-byte blob hashes / offset u24 / timestamp
u48, then derivation_hash 32) succeeds and reproduces exactly those values:
numeric fields as the encoded big-endian integers, address/hash fields as
`0x`-prefixed lowercase hex, `is_forced_inclusion` true iff the encoded byte
is nonzero, and the sources in encoding order with the encoded lengths. -/
theorem c1_decode_event_data_roundtrip (e : EventSpec) (hwf : e.WF) :
    decode_event_data (encodeEvent e) = .ok (expectedEvent e) := by
  obtain ⟨h1v, h2v, h3v, h4v, h5v, h6v, h7v, h8v, h9v, h10v, h11v⟩ := hwf
  have hshape : (encodeEvent e).drop 0 = encodeBE 6 e.id ++ (e.proposer ++
      (encodeBE 6 e.timestamp ++ (encodeBE 6 e.eosw ++ (e.parent ++ (encodeBE 6 e.obn ++
      (e.obh ++ (encodeBE 1 e.bfs ++ (encodeBE 2 e.sources.length ++
      ((e.sources.map encodeSource).flatten ++ (e.dh ++ [])))))))))) := by
    simp [encodeEvent, List.append_assoc]
  obtain ⟨s1, d1, l1⟩ := unpack_uint48_step (encodeEvent e) 0 e.id _ h1v hshape (Nat.zero_le _)
  obtain ⟨s2, d2, l2⟩ := unpack_address_step (encodeEvent e) (0 + 6) e.proposer _ h2v d1 l1
  obtain ⟨s3, d3, l3⟩ := unpack_uint48_step (encodeEvent e) (0 + 6 + 20) e.timestamp _ h3v d2 l2
  obtain ⟨s4, d4, l4⟩ := unpack_uint48_step (encodeEvent e) (0 + 6 + 20 + 6) e.eosw _ h4v d3 l3
  obtain ⟨s5, d5, l5⟩ := unpack_hash_step (encodeEvent e) (0 + 6 + 20 + 6 + 6) e.parent _ h5v d4 l4
  obtain ⟨s6, d6, l6⟩ :=
    unpack_uint48_step (encodeEvent e) (0 + 6 + 20 + 6 + 6 + 32) e.obn _ h6v d5 l5
  obtain ⟨s7, d7, l7⟩ :=
    unpack_hash_step (encodeEvent e) (0 + 6 + 20 + 6 + 6 + 32 + 6) e.obh _ h7v d6 l6
  obtain ⟨s8, d8, l8⟩ :=
    unpack_uint8_step (encodeEvent e) (0 + 6 + 20 + 6 + 6 + 32 + 6 + 32) e.bfs _ h8v d7 l7
  obtain ⟨s9, d9, l9⟩ := unpack_uint16_step (encodeEvent e)
    (0 + 6 + 20 + 6 + 6 + 32 + 6 + 32 + 1) e.sources.length _ h9v d8 l8
  obtain ⟨s10, d10, l10⟩ := decodeSourcesList_spec (encodeEvent e) e.sources
    (0 + 6 + 20 + 6 + 6 + 32 + 6 + 32 + 1 + 2) _ h10v d9 l9
  obtain ⟨s11, d11, l11⟩ := unpack_hash_step (encodeEvent e)
    (0 + 6 + 20 + 6 + 6 + 32 + 6 + 32 + 1 + 2 + (e.sources.map encodeSource).flatten.length)
    e.dh [] h11v d10 l10
  simp only [decode_event_data, decode_event_data_core, bind, Except.bind]
  rw [s1]
  simp only [s2]
  simp only [s3]
  simp only [s4]
  simp only [s5]
  simp only [s6]
  simp only [s7]
  simp only [s8]
  simp only [s9]
  simp only [s10]
  simp only [s11]
  simp [expectedEvent]

/-- Witness for C1 at a concrete event with one source and one blob hash. -/
theorem c1_decode_event_data_roundtrip_witness :
    EventSpec.WF exEvent ∧ decode_event_data (encodeEvent exEvent) = .ok (expectedEvent exEvent) :=
  ⟨by decide, c1_decode_event_data_roundtrip exEvent (by decide)⟩

/-- `data[pos:pos+1]` read as a big-endian integer is the byte itself. -/
theorem beNat_pySlice_one (data : List Nat) (pos : Nat) (h : pos < data.length) :
    beNat (pySlice data pos 1) = data.getD pos 0 := by
  rcases hdp : data.drop pos with _ | ⟨a, t⟩
  · have hlen := congrArg List.length hdp
    simp [List.length_drop] at hlen
    omega
  · have ha : data[pos]? = some a := by
      have h1 : (data.drop pos)[0]? = data[pos]? := by
        rw [List.getElem?_drop]
        norm_num
      rw [← h1, hdp]
      simp
    simp [pySlice, hdp, beNat, List.getD, ha]

/-- C2: each primitive reader (`uint8`/`uint16`/`uint24`/`uint48`/`address`/
`hash`, widths 1/2/3/6/20/32) fails iff fewer than `N` bytes remain from
`pos`, and on success returns the value decoded from `data[pos:pos+N]`
(big-endian integer, or `0x`-prefixed lowercase hex) together with cursor
`pos + N`, never advancing by any other amount. -/
theorem c2_primitive_reader_widths (data : List Nat) (pos : Nat) :
    (((∃ m, unpack_uint8 data pos = .error m) ↔ pos + 1 > data.length) ∧
      (pos + 1 ≤ data.length →
        unpack_uint8 data pos = .ok (beNat (pySlice data pos 1), pos + 1))) ∧
    (((∃ m, unpack_uint16 data pos = .error m) ↔ pos + 2 > data.length) ∧
      (pos + 2 ≤ data.length →
        unpack_uint16 data pos = .ok (beNat (pySlice data pos 2), pos + 2))) ∧
    (((∃ m, unpack_uint24 data pos = .error m) ↔ pos + 3 > data.length) ∧
      (pos + 3 ≤ data.length →
        unpack_uint24 data pos = .ok (beNat (pySlice data pos 3), pos + 3))) ∧
    (((∃ m, unpack_uint48 data pos = .error m) ↔ pos + 6 > data.length) ∧
      (pos + 6 ≤ data.length →
        unpack_uint48 data pos = .ok (beNat (pySlice data pos 6), pos + 6))) ∧
    (((∃ m, unpack_address data pos = .error m) ↔ pos + 20 > data.length) ∧
      (pos + 20 ≤ data.length →
        unpack_address data pos = .ok (hex0x (pySlice data pos 20), pos + 20))) ∧
    (((∃ m, unpack_hash data pos = .error m) ↔ pos + 32 > data.length) ∧
      (pos + 32 ≤ data.length →
        unpack_hash data pos = .ok (hex0x (pySlice data pos 32), pos + 32))) := by
  refine ⟨⟨?_, ?_⟩, ⟨?_, ?_⟩, ⟨?_, ?_⟩, ⟨?_, ?_⟩, ⟨?_, ?_⟩, ⟨?_, ?_⟩⟩
  · by_cases h : pos + 1 > data.length <;> simp [unpack_uint8, h]
  · intro h
    rw [beNat_pySlice_one data pos (by omega)]
    simp [unpack_uint8]
    omega
  · by_cases h : pos + 2 > data.length <;> simp [unpack_uint16, h]
  · intro h
    simp [unpack_uint16]
    omega
  · by_cases h : pos + 3 > data.length <;> simp [unpack_uint24, h]
  · intro h
    simp [unpack_uint24]
    omega
  · by_cases h : pos + 6 > data.length <;> simp [unpack_uint48, h]
  · intro h
    simp [unpack_uint48]
    omega
  · by_cases h : pos + 20 > data.length <;> simp [unpack_address, h]
  · intro h
    simp [unpack_address]
    omega
  · by_cases h : pos + 32 > data.length <;> simp [unpack_hash, h]
  · intro h
    simp [unpack_hash]
    omega

/-- Witness for C2: the six readers applied at cursor 2 of a 40-byte buffer,
plus a too-short uint48 read. -/
theorem c2_primitive_reader_widths_witness :
    (unpack_uint8 (List.range 40) 2 = .ok (beNat (pySlice (List.range 40) 2 1), 3)) ∧
    (unpack_uint16 (List.range 40) 2 = .ok (beNat (pySlice (List.range 40) 2 2), 4)) ∧
    (unpack_uint24 (List.range 40) 2 = .ok (beNat (pySlice (List.range 40) 2 3), 5)) ∧
    (unpack_uint48 (List.range 40) 2 = .ok (beNat (pySlice (List.range 40) 2 6), 8)) ∧
    (unpack_address (List.range 40) 2 = .ok (hex0x (pySlice (List.range 40) 2 20), 22)) ∧
    (unpack_hash (List.range 40) 2 = .ok (hex0x (pySlice (List.range 40) 2 32), 34)) ∧
    (∃ m, unpack_uint48 [0, 0, 0, 0, 0] 0 = .error m) :=
  ⟨(c2_primitive_reader_widths (List.range 40) 2).1.2 (by decide),
   (c2_primitive_reader_widths (List.range 40) 2).2.1.2 (by decide),
   (c2_primitive_reader_widths (List.range 40) 2).2.2.1.2 (by decide),
   (c2_primitive_reader_widths (List.range 40) 2).2.2.2.1.2 (by decide),
   (c2_primitive_reader_widths (List.range 40) 2).2.2.2.2.1.2 (by decide),
   (c2_primitive_reader_widths (List.range 40) 2).2.2.2.2.2.2 (by decide),
   ((c2_primitive_reader_widths [0, 0, 0, 0, 0] 0).2.2.2.1.1).mpr (by decide)⟩

/-- C9 (amended): a buffer shorter than a field requires makes the read fail
with the `ValueError` message naming the field kind and width — no silent
zero-fill — and `decode_event_data` surfaces it to the caller wrapped in
"Failed to decode Shasta event data: ...". The error carries no byte offset. -/
theorem c9_truncated_input_error (data : List Nat) (pos : Nat) :
    (pos + 6 > data.length → unpack_uint48 data pos = .error uint48Msg) ∧
    (data.length < 6 →
      decode_event_data data = .error ("Failed to decode Shasta event data: " ++ uint48Msg)) := by
  constructor
  · intro h
    simp [unpack_uint48, h]
  · intro h
    have h0 : unpack_uint48 data 0 = .error uint48Msg := by
      simp [unpack_uint48]
      omega
    simp only [decode_event_data, decode_event_data_core, bind, Except.bind]
    rw [h0]

/-- Witness for C9: the 5-byte buffer of the spec example, read at offset 0. -/
theorem c9_truncated_input_error_witness :
    unpack_uint48 [0, 0, 0, 0, 0] 0 = .error uint48Msg ∧
    decode_event_data [0, 0, 0, 0, 0] =
      .error ("Failed to decode Shasta event data: " ++ uint48Msg) :=
  ⟨(c9_truncated_input_error [0, 0, 0, 0, 0] 0).1 (by decide),
   (c9_truncated_input_error [0, 0, 0, 0, 0] 0).2 (by decide)⟩

/-- C9 counterexample (against "the error carries the byte offset at which the
read failed"): truncated reads at two different offsets produce the *same*
error value, so the surfaced error cannot determine the failing offset. -/
theorem c9_counterexample :
    unpack_uint48 [0, 0, 0, 0, 0] 0 = .error uint48Msg ∧
    unpack_uint48 [0, 0, 0, 0, 0, 0, 0, 0] 3 = .error uint48Msg := by
  constructor
  · rfl
  · rfl

/-- C6 (amended): the manual anchor-input decoding fails exactly when the
input is shorter than 4 + 96 bytes; on any input of at least 100 bytes it
returns the big-endian integer in bytes 30..36 (the low 6 bytes of the first
argument word), without inspecting the 4-byte selector. -/
theorem c6_decode_anchor_manual (input_bytes : List Nat) :
    decode_anchor_tx_input_manual input_bytes =
      if input_bytes.length < 100 then none
      else some (beNat (pySlice input_bytes 30 6)) := by
  by_cases h : input_bytes.length < 100
  · simp [decode_anchor_tx_input_manual, h]
  · have hsl : pySlice (pySlice input_bytes 4 32) 26 6 = pySlice input_bytes 30 6 := by
      simp [pySlice, List.drop_take, List.drop_drop, List.take_take]
    simp only [decode_anchor_tx_input_manual]
    rw [if_neg (by omega), hsl, if_neg h]

/-- C6 counterexample (against "fails ... when the input does not carry the
known anchor function selector"): two 100-byte inputs with different 4-byte
selectors — so at least one of them does not carry any fixed anchor selector —
are both decoded successfully to checkpoint block number 5. -/
theorem c6_counterexample :
    decode_anchor_tx_input_manual exAnchorA = some 5 ∧
    decode_anchor_tx_input_manual exAnchorB = some 5 ∧
    pySlice exAnchorA 0 4 ≠ pySlice exAnchorB 0 4 := by
  refine ⟨by decide, by decide, by decide⟩

/-! ## Hex round-trip lemmas for the extradata extractor -/

theorem hexDigitVal_hexDigitChar : ∀ v < 16, hexDigitVal (hexDigitChar v) = some v := by
  decide

theorem hexDigitChar_ne_x : ∀ v < 16, hexDigitChar v ≠ 'x' := by
  decide

theorem fromhex_bytesHexChars (bs : List Nat) (h : ∀ b ∈ bs, b < 256) :
    fromhex (bytesHexChars bs) = some bs := by
  induction bs with
  | nil => rfl
  | cons b rest ih =>
      have hb : b < 256 := h b (by simp)
      have hhi := hexDigitVal_hexDigitChar (b / 16) (by omega)
      have hlo := hexDigitVal_hexDigitChar (b % 16) (by omega)
      have hrest := ih (fun x hx => h x (by simp [hx]))
      have hcons : bytesHexChars (b :: rest) =
          hexDigitChar (b / 16) :: hexDigitChar (b % 16) :: bytesHexChars rest := by
        simp [bytesHexChars, byteHexChars]
      rw [hcons]
      simp only [fromhex, bind, Option.bind, hhi, hlo, hrest]
      have : b / 16 * 16 + b % 16 = b := by omega
      rw [this]

theorem strip0x_bytesHexChars (bs : List Nat) (h : ∀ b ∈ bs, b < 256) :
    strip0x (bytesHexChars bs) = bytesHexChars bs := by
  cases bs with
  | nil => rfl
  | cons b rest =>
      have hb : b < 256 := h b (by simp)
      have hx : hexDigitChar (b % 16) ≠ 'x' := hexDigitChar_ne_x (b % 16) (by omega)
      have hcons : bytesHexChars (b :: rest) =
          hexDigitChar (b / 16) :: hexDigitChar (b % 16) :: bytesHexChars rest := by
        simp [bytesHexChars, byteHexChars]
      rw [hcons]
      simp [strip0x, hx]

/-- C7: on a hex metadata string (with or without the `0x` marker), the
extractor returns the big-endian 48-bit integer in decoded bytes 1..7 when at
least 7 bytes are present (byte 0 is ignored), and fails when fewer than 7
bytes decode. -/
theorem c7_extract_proposal_id (bs : List Nat) (h : ∀ b ∈ bs, b < 256) :
    extract_proposal_id_from_extradata ('0' :: 'x' :: bytesHexChars bs) =
      (if bs.length < 7 then none else some (beNat (pySlice bs 1 6))) ∧
    extract_proposal_id_from_extradata (bytesHexChars bs) =
      (if bs.length < 7 then none else some (beNat (pySlice bs 1 6))) := by
  have hf := fromhex_bytesHexChars bs h
  constructor
  · have hs : strip0x ('0' :: 'x' :: bytesHexChars bs) = bytesHexChars bs := by
      simp [strip0x]
    simp [extract_proposal_id_from_extradata, hs, hf]
  · simp [extract_proposal_id_from_extradata, strip0x_bytesHexChars bs h, hf]

/-- Witness for C7: metadata `0x4b000000000005` extracts proposal id 5. -/
theorem c7_extract_proposal_id_witness :
    extract_proposal_id_from_extradata ('0' :: 'x' :: bytesHexChars exExtra) = some 5 := by
  rw [(c7_extract_proposal_id exExtra (by decide)).1]
  decide

/-! ## Grouping lemmas -/

theorem groupGo_flatten : ∀ (rest : List AnchorTxInfo) (cur : ProposalGroup),
    ((groupGo cur rest).map pidBlocks).flatten =
      pidBlocks cur ++ rest.map (fun i => (i.proposal_id, i.l2_block_number))
  | [], cur => by simp [groupGo]
  | info :: rest, cur => by
      by_cases h : info.proposal_id = cur.proposal_id
      · rw [groupGo, if_pos h, groupGo_flatten]
        simp [pidBlocks, h]
      · rw [groupGo, if_neg h]
        simp only [List.map_cons, List.flatten_cons, groupGo_flatten]
        simp [pidBlocks]

theorem groupGo_head : ∀ (rest : List AnchorTxInfo) (cur : ProposalGroup),
    ∃ g tl, groupGo cur rest = g :: tl ∧ g.proposal_id = cur.proposal_id
  | [], cur => ⟨cur, [], rfl, rfl⟩
  | info :: rest, cur => by
      by_cases h : info.proposal_id = cur.proposal_id
      · rw [groupGo, if_pos h]
        exact groupGo_head rest _
      · rw [groupGo, if_neg h]
        exact ⟨cur, _, rfl, rfl⟩

theorem groupGo_chain : ∀ (rest : List AnchorTxInfo) (cur : ProposalGroup),
    List.Chain' (fun a b => a.proposal_id ≠ b.proposal_id) (groupGo cur rest)
  | [], cur => by simp [groupGo]
  | info :: rest, cur => by
      by_cases h : info.proposal_id = cur.proposal_id
      · rw [groupGo, if_pos h]
        exact groupGo_chain rest _
      · rw [groupGo, if_neg h]
        rw [List.chain'_cons']
        refine ⟨?_, groupGo_chain rest _⟩
        intro y hy
        obtain ⟨g, tl, hgo, hpid⟩ :=
          groupGo_head rest ⟨info.proposal_id, info.anchor_number, [info.l2_block_number]⟩
        rw [hgo] at hy
        simp at hy
        subst hy
        rw [hpid]
        exact fun hc => h hc.symm

theorem groupGo_members : ∀ (rest : List AnchorTxInfo) (cur : ProposalGroup),
    cur.l2_block_numbers ≠ [] → ∀ g ∈ groupGo cur rest,
    (g.proposal_id = cur.proposal_id ∧ g.anchor_number = cur.anchor_number ∧
      g.l2_block_numbers.head? = cur.l2_block_numbers.head?) ∨
    (∃ i ∈ rest, g.proposal_id = i.proposal_id ∧ g.anchor_number = i.anchor_number ∧
      g.l2_block_numbers.head? = some i.l2_block_number)
  | [], cur => by
      intro hne g hg
      simp [groupGo] at hg
      subst hg
      exact Or.inl ⟨rfl, rfl, rfl⟩
  | info :: rest, cur => by
      intro hne g hg
      by_cases h : info.proposal_id = cur.proposal_id
      · rw [groupGo, if_pos h] at hg
        have hne2 : (cur.l2_block_numbers ++ [info.l2_block_number]) ≠ [] := by simp
        rcases groupGo_members rest _ hne2 g hg with ⟨hp, ha, hh⟩ | ⟨i, hi, hp, ha, hh⟩
        · left
          refine ⟨hp, ha, ?_⟩
          rw [hh]
          rcases hcur : cur.l2_block_numbers with _ | ⟨b, bs⟩
          · exact absurd hcur hne
          · simp
        · exact Or.inr ⟨i, by simp [hi], hp, ha, hh⟩
      · rw [groupGo, if_neg h] at hg
        rcases List.mem_cons.mp hg with hg | hg
        · subst hg
          exact Or.inl ⟨rfl, rfl, rfl⟩
        · rcases groupGo_members rest
              ⟨info.proposal_id, info.anchor_number, [info.l2_block_number]⟩ (by simp) g hg with
            ⟨hp, ha, hh⟩ | ⟨i, hi, hp, ha, hh⟩
          · exact Or.inr ⟨info, by simp, hp, ha, by simpa using hh⟩
          · exact Or.inr ⟨i, by simp [hi], hp, ha, hh⟩

/-- C3: for inputs sorted by strictly ascending `l2_block_number`, grouping
partitions the input exactly — the `(proposal_id, block)` pairs of the output
groups, concatenated in order, are exactly those of the input, so no block is
lost or duplicated and each group's `proposal_id` is constant across its
members — adjacent groups carry different `proposal_id`s (maximal runs), and
each group takes `proposal_id`, `anchor_number` and first block from its first
member. -/
theorem c3_group_blocks_partition (infos : List AnchorTxInfo)
    (hasc : List.Chain' (fun a b => a.l2_block_number < b.l2_block_number) infos) :
    ((group_blocks_by_proposal_id infos).map pidBlocks).flatten =
      infos.map (fun i => (i.proposal_id, i.l2_block_number)) ∧
    List.Chain' (fun a b => a.proposal_id ≠ b.proposal_id)
      (group_blocks_by_proposal_id infos) ∧
    ∀ g ∈ group_blocks_by_proposal_id infos, ∃ i ∈ infos,
      g.proposal_id = i.proposal_id ∧ g.anchor_number = i.anchor_number ∧
      g.l2_block_numbers.head? = some i.l2_block_number := by
  cases infos with
  | nil => simp [group_blocks_by_proposal_id]
  | cons info rest =>
      refine ⟨?_, ?_, ?_⟩
      · rw [group_blocks_by_proposal_id, groupGo_flatten]
        simp [pidBlocks]
      · exact groupGo_chain rest _
      · intro g hg
        rcases groupGo_members rest
            ⟨info.proposal_id, info.anchor_number, [info.l2_block_number]⟩ (by simp) g
            (by simpa [group_blocks_by_proposal_id] using hg) with
          ⟨hp, ha, hh⟩ | ⟨i, hi, hp, ha, hh⟩
        · exact ⟨info, by simp, hp, ha, by simpa using hh⟩
        · exact ⟨i, by simp [hi], hp, ha, hh⟩

/-- Witness for C3: the example `[(id=5, blk=10), (id=5, blk=11), (id=6, blk=12)]`
partitions as stated and produces the two groups of the claim. -/
theorem c3_group_blocks_partition_witness :
    (((group_blocks_by_proposal_id exInfos).map pidBlocks).flatten =
      exInfos.map (fun i => (i.proposal_id, i.l2_block_number))) ∧
    group_blocks_by_proposal_id exInfos = [⟨5, 100, [10, 11]⟩, ⟨6, 101, [12]⟩] :=
  ⟨(c3_group_blocks_partition exInfos (by simp [exInfos, List.chain'_cons])).1, by decide⟩

/-! ## Forward-scan lemmas -/

theorem find_proposal_end_block_go_spec (fetch : Nat → Option AnchorTxInfo)
    (proposal_id : Nat) : ∀ (fuel last : Nat),
    (find_proposal_end_block_go fetch proposal_id fuel (last + 1) last).2 ≤ fuel ∧
    last ≤ (find_proposal_end_block_go fetch proposal_id fuel (last + 1) last).1 ∧
    (find_proposal_end_block_go fetch proposal_id fuel (last + 1) last).1 ≤ last + fuel ∧
    (∀ b, last < b →
      b ≤ (find_proposal_end_block_go fetch proposal_id fuel (last + 1) last).1 →
      ∃ i, fetch b = some i ∧ i.proposal_id = proposal_id) ∧
    ((find_proposal_end_block_go fetch proposal_id fuel (last + 1) last).1 < last + fuel →
      ¬ ∃ i, fetch ((find_proposal_end_block_go fetch proposal_id fuel (last + 1) last).1 + 1) =
          some i ∧ i.proposal_id = proposal_id)
  | 0, last => by
      simp [find_proposal_end_block_go]
      omega
  | fuel + 1, last => by
      rcases hf : fetch (last + 1) with _ | info
      · rw [find_proposal_end_block_go, hf]
        dsimp only
        refine ⟨by omega, by omega, by omega, ?_, ?_⟩
        · intro b hb1 hb2
          omega
        · intro _ ⟨i, hi, _⟩
          rw [hf] at hi
          exact Option.noConfusion hi
      · by_cases hpid : info.proposal_id = proposal_id
        · rw [find_proposal_end_block_go, hf]
          dsimp only
          rw [if_pos hpid]
          obtain ⟨ih1, ih2, ih3, ih4, ih5⟩ :=
            find_proposal_end_block_go_spec fetch proposal_id fuel (last + 1)
          refine ⟨by simpa using Nat.add_le_add_right ih1 1, by omega, by omega, ?_, ?_⟩
          · intro b hb1 hb2
            by_cases hb : b = last + 1
            · exact ⟨info, by rw [hb, hf], hpid⟩
            · exact ih4 b (by omega) (by simpa using hb2)
          · intro hlt
            exact ih5 (by omega)
        · rw [find_proposal_end_block_go, hf]
          dsimp only
          rw [if_neg hpid]
          refine ⟨by omega, by omega, by omega, ?_, ?_⟩
          · intro b hb1 hb2
            omega
          · intro _ ⟨i, hi, hp⟩
            rw [hf] at hi
            exact hpid (by rw [← Option.some_inj.mp hi] at hp; exact hp)

/-- C8: for every block-fetch oracle, starting end block, proposal id and cap,
the forward scan performs at most `max_forward` fetches, returns a block
between `end_block` and `end_block + max_forward`, every scanned block up to
the result decodes to the given proposal id (so the result is the last block
confirmed to belong to it, `end_block` itself when no forward block matches),
and unless the cap was exhausted the next block fails to fetch/decode or
carries a different proposal id. -/
theorem c8_find_proposal_end_block_bounded (fetch : Nat → Option AnchorTxInfo)
    (end_block proposal_id max_forward : Nat) :
    find_proposal_end_block_fetches fetch end_block proposal_id max_forward ≤ max_forward ∧
    end_block ≤ find_proposal_end_block fetch end_block proposal_id max_forward ∧
    find_proposal_end_block fetch end_block proposal_id max_forward ≤
      end_block + max_forward ∧
    (∀ b, end_block < b →
      b ≤ find_proposal_end_block fetch end_block proposal_id max_forward →
      ∃ i, fetch b = some i ∧ i.proposal_id = proposal_id) ∧
    (find_proposal_end_block fetch end_block proposal_id max_forward <
        end_block + max_forward →
      ¬ ∃ i, fetch (find_proposal_end_block fetch end_block proposal_id max_forward + 1) =
          some i ∧ i.proposal_id = proposal_id) :=
  find_proposal_end_block_go_spec fetch proposal_id max_forward end_block

/-- Witness for C8: with the example oracle (blocks up to 12 in proposal 5,
block 13 in proposal 6), scanning forward from end block 10 under cap 100
stops at 12 after at most 100 fetches, and block 12 indeed matches. -/
theorem c8_find_proposal_end_block_bounded_witness :
    find_proposal_end_block exFetch 10 5 100 = 12 ∧
    (∃ i, exFetch 12 = some i ∧ i.proposal_id = 5) ∧
    find_proposal_end_block_fetches exFetch 10 5 100 ≤ 100 :=
  ⟨by decide,
   (c8_find_proposal_end_block_bounded exFetch 10 5 100).2.2.2.1 12 (by decide) (by decide),
   (c8_find_proposal_end_block_bounded exFetch 10 5 100).1⟩

/-! ## Cache lemmas for the inclusion resolver -/

theorem alookup_append_some {β : Type} (c l : List (Nat × β)) (k : Nat) (v : β)
    (h : alookup c k = some v) : alookup (c ++ l) k = some v := by
  induction c with
  | nil => exact absurd h (by simp [alookup])
  | cons p rest ih =>
      rw [List.cons_append, alookup]
      rw [alookup] at h
      by_cases hk : k = p.1
      · rwa [if_pos hk] at h ⊢
      · rw [if_neg hk] at h ⊢
        exact ih h

theorem alookup_append_one {β : Type} (c : List (Nat × β)) (k k' : Nat) (v : β)
    (h : alookup c k = none) :
    alookup (c ++ [(k', v)]) k = if k = k' then some v else none := by
  induction c with
  | nil => simp [alookup]
  | cons p rest ih =>
      rw [alookup] at h
      rw [List.cons_append, alookup]
      by_cases hk : k = p.1
      · rw [if_pos hk] at h
        exact Option.noConfusion h
      · rw [if_neg hk] at h ⊢
        exact ih h

theorem cacheGet_cacheSet_absent (c : Cache) (k' : Nat) (v : Option Nat)
    (h : cacheGet c k' = none) (k : Nat) :
    cacheGet (cacheSet c k' v) k = if k = k' then some v else cacheGet c k := by
  have hset : cacheSet c k' v = c ++ [(k', v)] := by
    simp [cacheSet, h]
  rw [hset]
  by_cases hk : k = k'
  · subst hk
    rw [if_pos rfl]
    exact (alookup_append_one c k k v h).trans (by simp)
  · rw [if_neg hk]
    rcases hc : cacheGet c k with _ | w
    · exact (alookup_append_one c k k' v hc).trans (by simp [hk])
    · exact alookup_append_some c [(k', v)] k w hc

theorem cacheGet_foldl_cacheSet (f : Nat → Option Nat) :
    ∀ (ids : List Nat) (c : Cache), (∀ i ∈ ids, cacheGet c i = none) → ids.Nodup →
    ∀ k, cacheGet (ids.foldl (fun acc p => cacheSet acc p (f p)) c) k =
      if k ∈ ids then some (f k) else cacheGet c k
  | [], c => by
      intro _ _ k
      simp
  | i :: ids, c => by
      intro habs hnd k
      simp only [List.foldl_cons]
      have hci : cacheGet c i = none := habs i (by simp)
      have habs2 : ∀ j ∈ ids, cacheGet (cacheSet c i (f i)) j = none := by
        intro j hj
        rw [cacheGet_cacheSet_absent c i (f i) hci j]
        have hji : j ≠ i := by
          rintro rfl
          exact (List.nodup_cons.mp hnd).1 hj
        rw [if_neg hji]
        exact habs j (by simp [hj])
      rw [cacheGet_foldl_cacheSet f ids (cacheSet c i (f i)) habs2 (List.nodup_cons.mp hnd).2 k]
      by_cases hk : k ∈ ids
      · simp [hk]
      · rw [if_neg hk, cacheGet_cacheSet_absent c i (f i) hci k]
        by_cases hki : k = i
        · simp [hki]
        · simp [hki, hk]

theorem mem_dedupFirst (x : Nat) : ∀ l : List Nat, x ∈ dedupFirst l ↔ x ∈ l
  | [] => by simp [dedupFirst]
  | a :: l => by
      by_cases hxa : x = a
      · simp [dedupFirst, hxa]
      · simp [dedupFirst, List.mem_filter, mem_dedupFirst x l, hxa]

theorem nodup_dedupFirst : ∀ l : List Nat, (dedupFirst l).Nodup
  | [] => by simp [dedupFirst]
  | a :: l => by
      rw [dedupFirst]
      refine List.nodup_cons.mpr ⟨?_, (nodup_dedupFirst l).filter _⟩
      simp [List.mem_filter]

theorem alookup_map_self {β : Type} (g : Nat → β) :
    ∀ (L : List Nat) (p : Nat), p ∈ L →
    alookup (L.map (fun x => (x, g x))) p = some (g p)
  | [], p => by simp
  | x :: L, p => by
      intro hp
      simp only [List.map_cons, alookup]
      by_cases hpx : p = x
      · simp [hpx]
      · rw [if_neg hpx]
        refine alookup_map_self g L p ?_
        rcases List.mem_cons.mp hp with h | h
        · exact absurd h hpx
        · exact h

/-- Membership in the still-uncached id list of a batch call. -/
theorem mem_uncachedIds (c : Cache) (queries : List (Nat × Nat)) (p : Nat) :
    p ∈ (requestedIds queries).filter (fun x => (cacheGet c x).isNone) ↔
      p ∈ requestedIds queries ∧ cacheGet c p = none := by
  simp [List.mem_filter, Option.isNone_iff_eq_none]

/-- The result list of a batch call always maps each requested id to the
`dict.get` of the post-call cache. -/
theorem batch_result_shape (c : Cache) (queries : List (Nat × Nat))
    (q : Except Unit (List LogEntry)) :
    (batch_find_proposal_blocks c queries q).1 =
      (requestedIds queries).map
        (fun p => (p, pyGet (batch_find_proposal_blocks c queries q).2.1 p)) := by
  by_cases he : ((requestedIds queries).filter (fun p => (cacheGet c p).isNone)).isEmpty
  · simp [batch_find_proposal_blocks, he]
  · rcases q with _ | logs <;> simp [batch_find_proposal_blocks, he]

/-! ## Resolver behavior lemmas -/

theorem find_l1_cached (c : Cache) (proposal_id : Nat) (q : Except Unit (List LogEntry))
    (v : Option Nat) (h : cacheGet c proposal_id = some v) :
    find_l1_inclusion_block c proposal_id q = (v, c, 0) := by
  simp [find_l1_inclusion_block, h]

theorem find_l1_caches_pid (c : Cache) (proposal_id : Nat)
    (q : Except Unit (List LogEntry)) :
    (cacheGet (find_l1_inclusion_block c proposal_id q).2.1 proposal_id).isSome := by
  rcases hc : cacheGet c proposal_id with _ | v
  · rcases q with _ | logs
    · simp [find_l1_inclusion_block, hc,
        cacheGet_cacheSet_absent c proposal_id none hc]
    · rcases hm : firstMatch logs proposal_id with _ | blk
      · simp [find_l1_inclusion_block, hc, hm,
          cacheGet_cacheSet_absent c proposal_id none hc]
      · simp [find_l1_inclusion_block, hc, hm,
          cacheGet_cacheSet_absent c proposal_id (some blk) hc]
  · simp [find_l1_inclusion_block, hc]

theorem find_l1_mono (c : Cache) (proposal_id : Nat) (q : Except Unit (List LogEntry))
    (k : Nat) (v : Option Nat) (h : cacheGet c k = some v) :
    cacheGet (find_l1_inclusion_block c proposal_id q).2.1 k = some v := by
  rcases hc : cacheGet c proposal_id with _ | w
  · have hk : k ≠ proposal_id := by
      rintro rfl
      rw [h] at hc
      exact Option.noConfusion hc
    rcases q with _ | logs
    · simp [find_l1_inclusion_block, hc,
        cacheGet_cacheSet_absent c proposal_id none hc, hk, h]
    · rcases hm : firstMatch logs proposal_id with _ | blk
      · simp [find_l1_inclusion_block, hc, hm,
          cacheGet_cacheSet_absent c proposal_id none hc, hk, h]
      · simp [find_l1_inclusion_block, hc, hm,
          cacheGet_cacheSet_absent c proposal_id (some blk) hc, hk, h]
  · simp [find_l1_inclusion_block, hc, h]

theorem batch_all_cached (c : Cache) (queries : List (Nat × Nat))
    (q : Except Unit (List LogEntry))
    (h : ∀ p ∈ requestedIds queries, (cacheGet c p).isSome) :
    batch_find_proposal_blocks c queries q =
      ((requestedIds queries).map (fun p => (p, pyGet c p)), c, 0) := by
  have he : (requestedIds queries).filter (fun p => (cacheGet c p).isNone) = [] := by
    rw [List.filter_eq_nil_iff]
    intro p hp
    rcases ho : cacheGet c p with _ | w
    · have hs := h p hp
      rw [ho] at hs
      exact absurd hs (by simp)
    · simp [ho]
  simp [batch_find_proposal_blocks, he]

theorem batch_mono (c : Cache) (queries : List (Nat × Nat))
    (q : Except Unit (List LogEntry)) (k : Nat) (v : Option Nat)
    (h : cacheGet c k = some v) :
    cacheGet (batch_find_proposal_blocks c queries q).2.1 k = some v := by
  by_cases he : ((requestedIds queries).filter
      (fun p => (cacheGet c p).isNone)).isEmpty = true
  · simp [batch_find_proposal_blocks, he, h]
  · have habs : ∀ i ∈ (requestedIds queries).filter (fun p => (cacheGet c p).isNone),
        cacheGet c i = none := fun i hi => ((mem_uncachedIds c queries i).mp hi).2
    have hnd : ((requestedIds queries).filter (fun p => (cacheGet c p).isNone)).Nodup :=
      (nodup_dedupFirst _).filter _
    have hk : k ∉ (requestedIds queries).filter (fun p => (cacheGet c p).isNone) := by
      intro hmem
      rw [habs k hmem] at h
      exact Option.noConfusion h
    rcases q with _ | logs
    · simp only [batch_find_proposal_blocks]
      rw [if_neg he]
      rw [cacheGet_foldl_cacheSet (fun _ => none) _ c habs hnd k, if_neg hk]
      exact h
    · simp only [batch_find_proposal_blocks]
      rw [if_neg he]
      rw [cacheGet_foldl_cacheSet
        (fun p => alookup (buildProposalToBlock logs
          ((requestedIds queries).filter (fun p => (cacheGet c p).isNone))) p)
        _ c habs hnd k, if_neg hk]
      exact h

theorem batch_caches_requested (c : Cache) (queries : List (Nat × Nat))
    (q : Except Unit (List LogEntry)) (p : Nat) (hp : p ∈ requestedIds queries) :
    (cacheGet (batch_find_proposal_blocks c queries q).2.1 p).isSome := by
  rcases hc : cacheGet c p with _ | v
  · have hpu : p ∈ (requestedIds queries).filter (fun x => (cacheGet c x).isNone) :=
      (mem_uncachedIds c queries p).mpr ⟨hp, hc⟩
    have habs : ∀ i ∈ (requestedIds queries).filter (fun x => (cacheGet c x).isNone),
        cacheGet c i = none := fun i hi => ((mem_uncachedIds c queries i).mp hi).2
    have hnd : ((requestedIds queries).filter (fun x => (cacheGet c x).isNone)).Nodup :=
      (nodup_dedupFirst _).filter _
    have hne : ¬ ((requestedIds queries).filter
        (fun x => (cacheGet c x).isNone)).isEmpty = true := by
      intro he
      rw [List.isEmpty_iff] at he
      rw [he] at hpu
      exact absurd hpu (by simp)
    rcases q with _ | logs
    · simp only [batch_find_proposal_blocks]
      rw [if_neg hne]
      rw [cacheGet_foldl_cacheSet (fun _ => none) _ c habs hnd p, if_pos hpu]
      rfl
    · simp only [batch_find_proposal_blocks]
      rw [if_neg hne]
      rw [cacheGet_foldl_cacheSet
        (fun x => alookup (buildProposalToBlock logs
          ((requestedIds queries).filter (fun x => (cacheGet c x).isNone))) x)
        _ c habs hnd p, if_pos hpu]
      rfl
  · simp [batch_mono c queries q p v hc]

theorem batch_result_cached (c : Cache) (queries : List (Nat × Nat))
    (q : Except Unit (List LogEntry)) (p : Nat) (v : Option Nat)
    (hp : p ∈ requestedIds queries) (h : cacheGet c p = some v) :
    alookup (batch_find_proposal_blocks c queries q).1 p = some v := by
  rw [batch_result_shape, alookup_map_self _ _ p hp]
  have hmono := batch_mono c queries q p v h
  simp [pyGet, hmono]

/-- C4: once a proposal id is cached (to a block number or to `None`), any
later resolution of it returns the cached value without issuing a windowed
query and without touching the cache; each resolution operation leaves every
pre-existing cache entry intact (the cache grows monotonically) and leaves
each requested id cached, so resolving the same id twice — through
`find_l1_inclusion_block` or `batch_find_proposal_blocks`, in any combination
— issues at most one windowed query in total. -/
theorem c4_cache_idempotent_monotone :
    (∀ (c : Cache) (proposal_id : Nat) (q : Except Unit (List LogEntry)) (v : Option Nat),
      cacheGet c proposal_id = some v →
      find_l1_inclusion_block c proposal_id q = (v, c, 0)) ∧
    (∀ (c : Cache) (proposal_id : Nat) (q : Except Unit (List LogEntry)),
      (cacheGet (find_l1_inclusion_block c proposal_id q).2.1 proposal_id).isSome) ∧
    (∀ (c : Cache) (proposal_id : Nat) (q : Except Unit (List LogEntry)) (k : Nat)
        (v : Option Nat), cacheGet c k = some v →
      cacheGet (find_l1_inclusion_block c proposal_id q).2.1 k = some v) ∧
    (∀ (c : Cache) (queries : List (Nat × Nat)) (q : Except Unit (List LogEntry)),
      (∀ p ∈ requestedIds queries, (cacheGet c p).isSome) →
      batch_find_proposal_blocks c queries q =
        ((requestedIds queries).map (fun p => (p, pyGet c p)), c, 0)) ∧
    (∀ (c : Cache) (queries : List (Nat × Nat)) (q : Except Unit (List LogEntry)) (k : Nat)
        (v : Option Nat), cacheGet c k = some v →
      cacheGet (batch_find_proposal_blocks c queries q).2.1 k = some v) ∧
    (∀ (c : Cache) (queries : List (Nat × Nat)) (q : Except Unit (List LogEntry)) (p : Nat),
      p ∈ requestedIds queries →
      (cacheGet (batch_find_proposal_blocks c queries q).2.1 p).isSome) ∧
    (∀ (c : Cache) (queries : List (Nat × Nat)) (q : Except Unit (List LogEntry)) (p : Nat)
        (v : Option Nat), p ∈ requestedIds queries → cacheGet c p = some v →
      alookup (batch_find_proposal_blocks c queries q).1 p = some v) :=
  ⟨find_l1_cached, find_l1_caches_pid, find_l1_mono, batch_all_cached, batch_mono,
   batch_caches_requested, batch_result_cached⟩

/-- Witness for C4: a cache holding `5 ↦ 42` and `7 ↦ None`.  Resolving 5 or 7
again (individually or batched) returns the cached outcome with zero queries
and an unchanged cache, and a fresh resolution of 9 leaves 5's entry intact
while caching 9. -/
theorem c4_cache_idempotent_monotone_witness :
    find_l1_inclusion_block [(5, some 42), (7, none)] 5 (.ok []) =
      (some 42, [(5, some 42), (7, none)], 0) ∧
    find_l1_inclusion_block [(5, some 42), (7, none)] 7 (.error ()) =
      (none, [(5, some 42), (7, none)], 0) ∧
    batch_find_proposal_blocks [(5, some 42), (7, none)] [(5, 30), (7, 31)] (.ok []) =
      ((requestedIds [(5, 30), (7, 31)]).map
        (fun p => (p, pyGet [(5, some 42), (7, none)] p)),
       [(5, some 42), (7, none)], 0) ∧
    cacheGet (find_l1_inclusion_block [(5, some 42), (7, none)] 9 (.error ())).2.1 5 =
      some (some 42) ∧
    (cacheGet (find_l1_inclusion_block [(5, some 42), (7, none)] 9 (.error ())).2.1 9).isSome :=
  ⟨c4_cache_idempotent_monotone.1 _ 5 _ (some 42) (by decide),
   c4_cache_idempotent_monotone.1 _ 7 _ none (by decide),
   c4_cache_idempotent_monotone.2.2.2.1 _ _ _ (by decide),
   c4_cache_idempotent_monotone.2.2.1 _ 9 _ 5 (some 42) (by decide),
   c4_cache_idempotent_monotone.2.1 _ 9 _⟩

/-- C5: if the windowed query of a batched resolution raises, the call still
returns (the error is caught): every requested id not already cached is
written to the cache as `None`, already-cached entries are untouched, and the
returned mapping covers every requested proposal id. -/
theorem c5_batch_query_failure (c : Cache) (queries : List (Nat × Nat)) :
    (∀ p ∈ requestedIds queries, cacheGet c p = none →
      cacheGet (batch_find_proposal_blocks c queries (.error ())).2.1 p = some none) ∧
    (∀ (k : Nat) (v : Option Nat), cacheGet c k = some v →
      cacheGet (batch_find_proposal_blocks c queries (.error ())).2.1 k = some v) ∧
    (∀ p ∈ requestedIds queries,
      ∃ v, alookup (batch_find_proposal_blocks c queries (.error ())).1 p = some v) := by
  refine ⟨?_, ?_, ?_⟩
  · intro p hp hc
    have hpu : p ∈ (requestedIds queries).filter (fun x => (cacheGet c x).isNone) :=
      (mem_uncachedIds c queries p).mpr ⟨hp, hc⟩
    have habs : ∀ i ∈ (requestedIds queries).filter (fun x => (cacheGet c x).isNone),
        cacheGet c i = none := fun i hi => ((mem_uncachedIds c queries i).mp hi).2
    have hnd : ((requestedIds queries).filter (fun x => (cacheGet c x).isNone)).Nodup :=
      (nodup_dedupFirst _).filter _
    have hne : ¬ ((requestedIds queries).filter
        (fun x => (cacheGet c x).isNone)).isEmpty = true := by
      intro he
      rw [List.isEmpty_iff] at he
      rw [he] at hpu
      exact absurd hpu (by simp)
    simp only [batch_find_proposal_blocks]
    rw [if_neg hne]
    rw [cacheGet_foldl_cacheSet (fun _ => none) _ c habs hnd p, if_pos hpu]
  · intro k v h
    exact batch_mono c queries (.error ()) k v h
  · intro p hp
    rw [batch_result_shape, alookup_map_self _ _ p hp]
    exact ⟨_, rfl⟩

/-- Witness for C5: cache `{1 ↦ 10}`, requested ids 1 and 2, failing query:
2 is cached as `None`, 1 keeps its value, and the result covers both. -/
theorem c5_batch_query_failure_witness :
    cacheGet (batch_find_proposal_blocks [(1, some 10)] [(1, 0), (2, 0)] (.error ())).2.1 2 =
      some none ∧
    cacheGet (batch_find_proposal_blocks [(1, some 10)] [(1, 0), (2, 0)] (.error ())).2.1 1 =
      some (some 10) ∧
    (∃ v, alookup (batch_find_proposal_blocks [(1, some 10)] [(1, 0), (2, 0)] (.error ())).1 2 =
      some v) :=
  ⟨(c5_batch_query_failure [(1, some 10)] [(1, 0), (2, 0)]).1 2 (by decide) (by decide),
   (c5_batch_query_failure [(1, some 10)] [(1, 0), (2, 0)]).2.1 1 (some 10) (by decide),
   (c5_batch_query_failure [(1, some 10)] [(1, 0), (2, 0)]).2.2 2 (by decide)⟩

/-- C10: the decoded `ShastaEventData` record carries no `core_state` field,
so `decode_shasta_event.py`'s `main` — which reads `event.core_state` after
the proposal and derivation sections — hits an `AttributeError` on every
payload whose decode succeeds, and never completes successfully on any
input. -/
theorem c10_main_never_succeeds :
    ("core_state" ∉ shastaEventDataFields) ∧
    (∀ event_data : List Char, decodeShastaEventMain event_data ≠ .ok ()) ∧
    (∀ (event_data : List Char) (bs : List Nat), mainPayloadBytes event_data = .ok bs →
      ∀ ev, decode_event_data bs = .ok ev →
      decodeShastaEventMain event_data = .error .attributeError) := by
  have hmem : "core_state" ∉ shastaEventDataFields := by decide
  refine ⟨hmem, ?_, ?_⟩
  · intro event_data
    unfold decodeShastaEventMain
    rcases hpb : mainPayloadBytes event_data with e | bs
    · simp
    · dsimp only
      rcases hde : decode_event_data bs with msg | ev
      · simp
      · rw [if_neg hmem]
        simp
  · intro event_data bs hbs ev hev
    unfold decodeShastaEventMain
    rw [hbs]
    dsimp only
    rw [hev]
    dsimp only
    rw [if_neg hmem]

set_option maxRecDepth 100000

/-- Witness for C10: the hex rendering of a well-formed encoded event decodes
successfully, and `main` on it fails with the `core_state` attribute error. -/
theorem c10_main_never_succeeds_witness :
    mainPayloadBytes (bytesHexChars (encodeEvent exEvent)) = .ok (encodeEvent exEvent) ∧
    decode_event_data (encodeEvent exEvent) = .ok (expectedEvent exEvent) ∧
    decodeShastaEventMain (bytesHexChars (encodeEvent exEvent)) = .error .attributeError :=
  ⟨by rfl, by rfl,
   c10_main_never_succeeds.2.2 _ (encodeEvent exEvent) (by rfl) (expectedEvent exEvent) (by rfl)⟩
